import Mathlib

/- Shallow embedding of the inline-assembly lowering subsystem in
   src/d/asmstmt.cc of the GDC D front end.  The pure data and control flow of
   AsmStatement::toIR and ExtAsmStatement::semantic are translated directly.
   External collaborators (the expression evaluator, the frame-layout oracle
   getFrameRelativeValue, the target register table regInfo) are abstracted as
   parameters.  C undefined behavior (reading an uninitialized array slot,
   a left shift by a negative count) is made explicit with Option, where
   none marks undefined behavior. -/

/-- Operand kind of the machine-specific asm form (enum AsmArgType in asmstmt.cc). -/
inductive AsmArgType
  | Arg_Integer
  | Arg_Pointer
  | Arg_Memory
  | Arg_FrameRelative
  | Arg_LocalSize
  | Arg_Dollar
  deriving DecidableEq

/-- Operand direction (enum AsmArgMode in asmstmt.cc). -/
inductive AsmArgMode
  | Mode_Input
  | Mode_Output
  | Mode_Update
  deriving DecidableEq

/-- The shapes of operand expressions that AsmStatement::toIR distinguishes:
a variable reference (op == TOKvar), a floating point literal (op == TOKfloat64),
a label symbol (op == TOKdsymbol), and anything else.  Symbols and labels are
identified by a number. -/
inductive DExpr
  | evar (sym : Nat)
  | float64 (bits : Nat)
  | dsymbol (lab : Nat)
  | other (code : Nat)
  deriving DecidableEq

/-- struct AsmArg of asmstmt.cc: kind, source expression, direction. -/
structure AsmArg where
  type : AsmArgType
  expr : DExpr
  mode : AsmArgMode
  deriving DecidableEq

/-- The GCC tree values that toIR builds for operands, kept symbolic:
toElem results, symbol trees of variables, label trees, address-of nodes,
integer constants, and the anonymous read-only static materialized for a
floating point literal used as a memory operand. -/
inductive TVal
  | elemOf (e : DExpr)
  | symTree (sym : Nat)
  | labelTree (lab : Nat)
  | addressOf (t : TVal)
  | intConst (i : Int)
  | anonConst (e : DExpr)
  deriving DecidableEq

/-- The pieces of IRState and cfun that toIR consults: the frame-layout oracle
(getFrameRelativeValue, mapping a variable symbol to its frame offset when it
is frame resident), cfun.x_frame_offset, and the naked flag of the enclosing
function. -/
structure IREnv where
  frameOracle : Nat → Option Int
  frameOffset : Int
  naked : Bool

/-- Outcome of resolving one operand inside the loop of AsmStatement::toIR:
either a constraint string, a value, the is_input flag and whether the operand
forces the memory clobber (only a FrameRelative non-input does), or a reported
user error that abandons the statement, or a failed assert. -/
inductive ArgRes
  | ok (cns : String) (val : TVal) (isInput : Bool) (forcesMemClobber : Bool)
  | userError (msg : String)
  | assertFail
  deriving DecidableEq

/-- The switch (arg->type) of AsmStatement::toIR, lines 377-449 of asmstmt.cc.
The Arg_Dollar case is commented out in the source, so it falls to the default
branch, assert(0). -/
def resolveArg (env : IREnv) (arg : AsmArg) : ArgRes :=
  match arg.type with
  | .Arg_Integer => .ok "i" (.elemOf arg.expr) true false
  | .Arg_Pointer =>
    match arg.expr with
    | .evar s => .ok "p" (.addressOf (.symTree s)) true false
    | .dsymbol l => .ok "p" (.addressOf (.labelTree l)) true false
    | _ => .assertFail
  | .Arg_Memory =>
    let v : TVal :=
      match arg.expr with
      | .evar s => .symTree s
      | .float64 b => .anonConst (.float64 b)
      | e => .elemOf e
    match arg.mode with
    | .Mode_Input => .ok "m" v true false
    | .Mode_Output => .ok "=m" v false false
    | .Mode_Update => .ok "+m" v false false
  | .Arg_FrameRelative =>
    match arg.expr with
    | .evar s =>
      match env.frameOracle s with
      | some off =>
        .ok "i" (.intConst off) true
          (match arg.mode with | .Mode_Input => false | _ => true)
      | none => .userError "argument not frame relative"
    | _ => .assertFail
  | .Arg_LocalSize =>
    .ok "i" (.intConst (if env.frameOffset < 0 then -env.frameOffset else env.frameOffset))
      true false
  | .Arg_Dollar => .assertFail

/-- The loop state of AsmStatement::toIR: the two operand lists being built
(ListMaker cons appends at the tail, so lists are in declaration order), the
provisional arg_map entries written so far, input_idx, n_outputs and
clobbers_mem. -/
structure CollectState where
  inputs : List (String × TVal)
  outputs : List (String × TVal)
  arg_map : List Int
  input_idx : Int
  n_outputs : Nat
  clobbers_mem : Bool
  deriving DecidableEq

/-- One loop iteration after the switch, lines 451-457: an input operand gets
provisional index --input_idx and goes to the input list, an output operand
gets n_outputs++ and goes to the output list. -/
def collectStep (st : CollectState) (cns : String) (val : TVal)
    (isInput : Bool) (forces : Bool) : CollectState :=
  if isInput then
    { st with inputs := st.inputs ++ [(cns, val)],
              arg_map := st.arg_map ++ [st.input_idx - 1],
              input_idx := st.input_idx - 1,
              clobbers_mem := st.clobbers_mem || forces }
  else
    { st with outputs := st.outputs ++ [(cns, val)],
              arg_map := st.arg_map ++ [(st.n_outputs : Int)],
              n_outputs := st.n_outputs + 1,
              clobbers_mem := st.clobbers_mem || forces }

/-- Result of the operand loop: completion, an error return that abandons the
statement (leaving the state as it was before the failing operand), or a
failed assert. -/
inductive CollectResult
  | done (st : CollectState)
  | abandoned (msg : String) (st : CollectState)
  | assertFailed
  deriving DecidableEq

/-- The operand loop of AsmStatement::toIR, lines 370-458. -/
def collectArgs (env : IREnv) : List AsmArg → CollectState → CollectResult
  | [], st => .done st
  | a :: rest, st =>
    match resolveArg env a with
    | .ok cns v isIn f => collectArgs env rest (collectStep st cns v isIn f)
    | .userError msg => .abandoned msg st
    | .assertFail => .assertFailed

/-- The is_input flag an operand would get from the switch, when it resolves. -/
def argIsInput (env : IREnv) (a : AsmArg) : Option Bool :=
  match resolveArg env a with
  | .ok _ _ b _ => some b
  | _ => none

/-- The is_input flags of a whole operand list, defined when every operand
resolves without error. -/
def argFlags (env : IREnv) : List AsmArg → Option (List Bool)
  | [] => some []
  | a :: rest =>
    match argIsInput env a with
    | some b => Option.map (fun l => b :: l) (argFlags env rest)
    | none => none

/-- Initial loop state: empty lists, input_idx = 0, n_outputs = 0, and
clobbers_mem seeded from code->clobbersMemory. -/
def initState (cm : Bool) : CollectState :=
  { inputs := [], outputs := [], arg_map := [], input_idx := 0,
    n_outputs := 0, clobbers_mem := cm }

/-- The remap loop, lines 481-484: every provisional index v < 0 becomes
-v - 1 + n_outputs; nonnegative entries are already final. -/
def remapArgMap (m : List Int) (k : Nat) : List Int :=
  m.map (fun v => if v < 0 then -v - 1 + (k : Int) else v)

/-- The byte written for a digit substitution: the C expression
(char)('0' + arg_map[d]), with the int sum truncated to a byte. -/
def substChar (v : Int) : Char :=
  Char.ofNat ((((48 : Int) + v).emod 256).toNat)

/-- The template rewrite loop, lines 486-503.  A pending percent followed by a
digit d substitutes arg_map[d]; reading a slot that the operand loop never
wrote (d at or beyond the operand count, noted in the source as a missing
check against nargs) is a read of an uninitialized C array element, returned
as none.  A pending percent followed by another percent clears the pending
flag; followed by anything else it leaves the byte alone and keeps the flag
pending. -/
def rewriteTemplate (m : List Int) : List Char → Bool → Option (List Char)
  | [], _ => some []
  | c :: rest, pct =>
    if pct then
      if '0' ≤ c ∧ c ≤ '9' then
        match m.get? (c.toNat - 48) with
        | none => none
        | some v => Option.map (fun r => substChar v :: r) (rewriteTemplate m rest false)
      else if c = '%' then Option.map (fun r => c :: r) (rewriteTemplate m rest false)
      else Option.map (fun r => c :: r) (rewriteTemplate m rest true)
    else
      if c = '%' then Option.map (fun r => c :: r) (rewriteTemplate m rest true)
      else Option.map (fun r => c :: r) (rewriteTemplate m rest false)

/-- C left shift of the int literal 1 by an int count: undefined when the
count is negative (the relevant case here), otherwise the bit pattern
2 ^ count. -/
def cShl1 (sh : Int) : Option Nat :=
  if sh < 0 then none else some (2 ^ sh.toNat)

/-- The explicit register clobber loop, lines 465-469: for i in [0,32), if
regs & (1 << i), append regInfo[i].gccName. -/
def regLoop (regs : Nat) (rn : Nat → String) : List Nat → Option (List String)
  | [] => some []
  | i :: rest => do
    let mask ← cShl1 ((i : Int))
    let tail ← regLoop regs rn rest
    pure (if regs &&& mask ≠ 0 then rn i :: tail else tail)

/-- The moreRegs clobber loop, lines 470-474, exactly as written: for i in
[0,32), test moreRegs & (1 << (i-32)) and append regInfo[i].gccName.  The
shift count i - 32 is negative for every i in [0,32). -/
def moreRegLoop (moreRegs : Nat) (rn : Nat → String) : List Nat → Option (List String)
  | [] => some []
  | i :: rest => do
    let mask ← cShl1 ((i : Int) - 32)
    let tail ← moreRegLoop moreRegs rn rest
    pure (if moreRegs &&& mask ≠ 0 then rn i :: tail else tail)

/-- The clobber block of AsmStatement::toIR, lines 464-477: nothing at all for
a naked function; otherwise the explicit register loop, then the moreRegs
loop, then "memory" when clobbers_mem is set. -/
def buildClobbers (naked : Bool) (regs moreRegs : Nat) (clobbersMem : Bool)
    (rn : Nat → String) : Option (List String) :=
  if naked then some []
  else do
    let l1 ← regLoop regs rn (List.range 32)
    let l2 ← moreRegLoop moreRegs rn (List.range 32)
    pure (l1 ++ l2 ++ (if clobbersMem then ["memory"] else []))

/-- struct AsmCode of asmstmt.cc: the instruction template bytes, the operand
descriptors, the moreRegs word, the dollar label id (0 = none) and the
memory-clobber flag. -/
structure AsmCodeRec where
  insnTemplate : List Char
  args : List AsmArg
  moreRegs : Nat
  dollarLabel : Nat
  clobbersMemory : Bool
  deriving DecidableEq

/-- The outcome of AsmStatement::toIR: an emitted instruction record (final
template, output list, input list, clobber list, and the private label
request when dollarLabel is set), an error return that abandons the
statement, a failed assert, or C undefined behavior. -/
inductive LowerOutcome
  | emitted (template : List Char) (outputs inputs : List (String × TVal))
      (clobbers : List String) (labelReq : Option Nat)
  | abandoned (msg : String)
  | assertFailed
  | ub
  deriving DecidableEq

/-- The clobber list of an emitted record, if one was emitted. -/
def emittedClobbers : LowerOutcome → Option (List String)
  | .emitted _ _ _ cl _ => some cl
  | _ => none

/-- AsmStatement::toIR, lines 331-520: assert the operand count fits the
10-slot arg_map, run the operand loop, build the clobber list, remap the
provisional indices, rewrite the template, and hand the record to the
emitter together with the optional private label request. -/
def toIR (env : IREnv) (regs : Nat) (rn : Nat → String) (code : AsmCodeRec) : LowerOutcome :=
  if code.args.length ≤ 10 then
    match collectArgs env code.args (initState code.clobbersMemory) with
    | .abandoned msg _ => .abandoned msg
    | .assertFailed => .assertFailed
    | .done st =>
      match buildClobbers env.naked regs code.moreRegs st.clobbers_mem rn with
      | none => .ub
      | some cl =>
        match rewriteTemplate (remapArgMap st.arg_map st.n_outputs) code.insnTemplate false with
        | none => .ub
        | some t =>
          .emitted t st.outputs st.inputs cl
            (if code.dollarLabel = 0 then none else some code.dollarLabel)
  else .assertFailed

/-- The canonical index map as the spec describes it (section 4.4): walking the
is_input flags, an output gets the running output counter, an input gets
k + the running input counter, k being the total number of outputs.  Used to
compare the remapped arg_map against the specified bijection. -/
def canonMap (k : Nat) : List Bool → Nat → Nat → List Nat
  | [], _, _ => []
  | false :: rest, o, j => o :: canonMap k rest (o + 1) j
  | true :: rest, o, j => (k + j) :: canonMap k rest o (j + 1)

/-- The provisional arg_map contents produced by the operand loop, as a pure
function of the is_input flags and the running counters. -/
def provisionalMap : List Bool → Int → Nat → List Int
  | [], _, _ => []
  | true :: rest, inIdx, nOut => (inIdx - 1) :: provisionalMap rest (inIdx - 1) nOut
  | false :: rest, inIdx, nOut => (nOut : Int) :: provisionalMap rest inIdx (nOut + 1)

/-- The parts of an ExtAsmStatement that ExtAsmStatement::semantic consults,
after the external expression passes ran: whether the template folded to a
constant char string, whether each operand is a modifiable lvalue, whether
each constraint and each clobber folded to a constant char string, and
nOutputArgs. -/
structure ExtAsmModel where
  templConst : Bool
  argsModifiable : List Bool
  constraintsConst : List Bool
  clobbersConst : List Bool
  nOutputArgs : Nat
  deriving DecidableEq

def errTempl : String := "instruction template must be a constant char string"

def errConstraint : String := "constraint must be a constant char string"

def errClobber : String := "clobber specification must be a constant char string"

/-- Modelled from the spec: the failure message of Expression::modifiableLvalue,
which lives outside src/ (the statement records a type error for a non
modifiable output operand; its exact text is produced by the expression
checker).  Only its presence matters here, not its wording. -/
def errModifiable : String := "operand is not a modifiable lvalue"

/-- The operand loop of ExtAsmStatement::semantic, lines 220-236: each entry
carries (modifiable, constraintConstant); an output operand that is not a
modifiable lvalue records an error, then the matching constraint is checked;
the loop never exits early. -/
def extSemanticLoop (nOut : Nat) : Nat → List (Bool × Bool) → List String
  | _, [] => []
  | i, (modif, cconst) :: rest =>
    (if i < nOut then (if modif then [] else [errModifiable]) else [])
      ++ (if cconst then [] else [errConstraint])
      ++ extSemanticLoop nOut (i + 1) rest

/-- The clobber loop of ExtAsmStatement::semantic, lines 237-245. -/
def clobberLoop : List Bool → List String
  | [] => []
  | c :: rest => (if c then [] else [errClobber]) ++ clobberLoop rest

/-- ExtAsmStatement::semantic, lines 214-247: check the template, then every
operand with its constraint, then every clobber, recording the errors in
order against the statement; there is no early return. -/
def extSemantic (m : ExtAsmModel) : List String :=
  (if m.templConst then [] else [errTempl])
    ++ extSemanticLoop m.nOutputArgs 0 (m.argsModifiable.zip m.constraintsConst)
    ++ clobberLoop m.clobbersConst

/- Concrete instances used to evaluate the theorems on closed inputs. -/

/-- An environment whose frame oracle resolves nothing, for a naked function. -/
def envNaked : IREnv := { frameOracle := fun _ => none, frameOffset := 0, naked := true }

/-- A placeholder register naming table. -/
def rn0 : Nat → String := fun _ => "r"

/-- An integer input operand. -/
def intArg0 : AsmArg := { type := .Arg_Integer, expr := .other 0, mode := .Mode_Input }

/-- A memory output operand. -/
def memOutArg0 : AsmArg := { type := .Arg_Memory, expr := .evar 1, mode := .Mode_Output }

/-- A two-operand statement: one memory output then one integer input. -/
def args01 : List AsmArg := [memOutArg0, intArg0]

/-- The loop state after processing args01. -/
def st01 : CollectState :=
  { inputs := [("i", .elemOf (.other 0))], outputs := [("=m", .symTree 1)],
    arg_map := [0, -1], input_idx := -1, n_outputs := 1, clobbers_mem := false }

/-- A statement whose template references operand 1 while only operand 0 exists. -/
def codeOob : AsmCodeRec :=
  { insnTemplate := ['%', '1'], args := [intArg0], moreRegs := 0,
    dollarLabel := 0, clobbersMemory := false }

/-- A statement with eleven operands. -/
def code11 : AsmCodeRec :=
  { insnTemplate := [], args := List.replicate 11 intArg0, moreRegs := 0,
    dollarLabel := 0, clobbersMemory := false }

/-- A well-formed single memory-input statement, used under a naked function. -/
def codeNaked1 : AsmCodeRec :=
  { insnTemplate := ['x'],
    args := [{ type := .Arg_Memory, expr := .evar 3, mode := .Mode_Input }],
    moreRegs := 0, dollarLabel := 0, clobbersMemory := false }

/-- A frame-relative output operand on a variable the oracle cannot resolve. -/
def frameFailArg : AsmArg :=
  { type := .Arg_FrameRelative, expr := .evar 4, mode := .Mode_Output }

/-- A statement whose second operand is the unresolvable frame-relative one. -/
def codeFrameFail : AsmCodeRec :=
  { insnTemplate := ['x'], args := [intArg0, frameFailArg], moreRegs := 0,
    dollarLabel := 0, clobbersMemory := false }

/-- The loop state after processing just intArg0. -/
def stPre7 : CollectState :=
  { inputs := [("i", .elemOf (.other 0))], outputs := [], arg_map := [-1],
    input_idx := -1, n_outputs := 0, clobbers_mem := false }

/-- An extended asm statement in which every check fails at least once. -/
def mC9 : ExtAsmModel :=
  { templConst := false, argsModifiable := [false, true],
    constraintsConst := [false, false], clobbersConst := [false], nOutputArgs := 1 }

/- Theorems -/

/-- The moreRegs loop evaluates 1 << (0 - 32) on its first iteration, a left
shift by a negative count, so in C semantics the whole loop is undefined
behavior for every value of moreRegs. -/
theorem moreRegLoop_range32_ub (mr : Nat) (rn : Nat → String) :
    moreRegLoop mr rn (List.range 32) = none := rfl

/-- The explicit register loop only shifts by nonnegative counts, so it always
produces a list. -/
theorem regLoop_isSome (regs : Nat) (rn : Nat → String) :
    ∀ l : List Nat, ∃ out, regLoop regs rn l = some out := by
  intro l
  induction l with
  | nil => exact ⟨[], rfl⟩
  | cons i rest ih =>
    obtain ⟨out, hout⟩ := ih
    have h0 : ¬ ((i : Int) < 0) := by omega
    refine ⟨if regs &&& 2 ^ i = 0 then out else rn i :: out, ?_⟩
    simp [regLoop, cShl1, h0, hout]

/-- Claim C4: the claim says that for every bit i set in moreRegs the clobber
list receives the register name at table index i + 32 and nothing else.  The
code instead loops i over [0,32), tests moreRegs & (1 << (i-32)) — a shift by
a negative count, undefined behavior in C — and would index regInfo[i], not
regInfo[i+32].  Consequently the non-naked clobber build never produces a
defined result, and in particular never appends the register at index i + 32. -/
theorem moreRegs_clobber_loop_ub (regs moreRegs : Nat) (cm : Bool) (rn : Nat → String) :
    buildClobbers false regs moreRegs cm rn = none := by
  obtain ⟨out, hout⟩ := regLoop_isSome regs rn (List.range 32)
  simp [buildClobbers, hout, moreRegLoop_range32_ub]

/-- Claim C2: the claim says capacity violations produce a diagnostic and the
out-of-range template digit is never used to index the remap table.  In the
code, a template digit at or beyond the operand count indexes the
uninitialized part of the 10-slot arg_map (undefined behavior, here the digit
1 with a single operand), and an 11-operand statement dies on
assert(code->args.dim <= 10) rather than a user diagnostic. -/
theorem capacity_errors_not_diagnosed :
    toIR envNaked 0 rn0 codeOob = .ub ∧ toIR envNaked 0 rn0 code11 = .assertFailed := by
  exact ⟨rfl, rfl⟩

/-- Claim C3 counterexample: with two operands (an input then an output) the
remapped arg_map is [1, 0]; rewriting the template %a1 substitutes the digit 1
(it becomes 0), because the pending-percent flag is not cleared by the
modifier letter a.  The claim said that digit is never substituted. -/
theorem modifier_digit_substituted_ce :
    rewriteTemplate [1, 0] ('%' :: 'a' :: '1' :: []) false
      = some ('%' :: 'a' :: '0' :: []) := by decide

/-- Claim C3 as amended: when a percent is pending and the next byte is
neither a decimal digit nor another percent, the byte is left untouched but
the pending state is kept, so a digit after a modifier letter still gets
substituted. -/
theorem rewrite_modifier_keeps_pending (m : List Int) (c : Char) (rest : List Char)
    (h1 : ¬('0' ≤ c ∧ c ≤ '9')) (h2 : ¬(c = '%')) :
    rewriteTemplate m (c :: rest) true
      = Option.map (fun l => c :: l) (rewriteTemplate m rest true) := by
  simp [rewriteTemplate, h1, h2]

theorem rewrite_modifier_keeps_pending_witness :
    rewriteTemplate [0] ('a' :: '1' :: []) true
      = Option.map (fun l => 'a' :: l) (rewriteTemplate [0] ('1' :: []) true) :=
  rewrite_modifier_keeps_pending [0] 'a' ['1'] (by decide) (by decide)

/-- Claim C10: an Arg_Dollar operand (its lowering code is commented out in
the source) reaches the default branch of the switch and fails assert(0); the
loop therefore ends in the assert outcome, which adds no operand entry to
either list and reports no user diagnostic. -/
theorem dollar_operand_asserts (env : IREnv) (e : DExpr) (mode : AsmArgMode)
    (rest : List AsmArg) (st : CollectState) :
    resolveArg env { type := .Arg_Dollar, expr := e, mode := mode } = .assertFail ∧
    collectArgs env ({ type := .Arg_Dollar, expr := e, mode := mode } :: rest) st
      = .assertFailed :=
  ⟨rfl, rfl⟩

/-- Claim C6: a memory operand resolves to constraint exactly "=m" (Output,
an output), "+m" (Update, an output) or "m" (Input, an input), and the loop
step files an output operand in the output list only and an input operand in
the input list only. -/
theorem memory_operand_placement (env : IREnv) (e : DExpr) (mode : AsmArgMode) :
    (mode = .Mode_Output →
      ∃ v, resolveArg env { type := .Arg_Memory, expr := e, mode := mode }
        = .ok "=m" v false false) ∧
    (mode = .Mode_Update →
      ∃ v, resolveArg env { type := .Arg_Memory, expr := e, mode := mode }
        = .ok "+m" v false false) ∧
    (mode = .Mode_Input →
      ∃ v, resolveArg env { type := .Arg_Memory, expr := e, mode := mode }
        = .ok "m" v true false) ∧
    (∀ st cns v f,
      (collectStep st cns v false f).outputs = st.outputs ++ [(cns, v)] ∧
      (collectStep st cns v false f).inputs = st.inputs ∧
      (collectStep st cns v true f).inputs = st.inputs ++ [(cns, v)] ∧
      (collectStep st cns v true f).outputs = st.outputs) := by
  refine ⟨?_, ?_, ?_, ?_⟩
  · rintro rfl
    cases e <;> exact ⟨_, rfl⟩
  · rintro rfl
    cases e <;> exact ⟨_, rfl⟩
  · rintro rfl
    cases e <;> exact ⟨_, rfl⟩
  · intro st cns v f
    refine ⟨?_, ?_, ?_, ?_⟩ <;> simp [collectStep]

theorem memory_operand_placement_witness :
    ∃ v, resolveArg envNaked { type := .Arg_Memory, expr := .evar 1, mode := .Mode_Output }
      = .ok "=m" v false false :=
  (memory_operand_placement envNaked (.evar 1) .Mode_Output).1 rfl

/-- Claim C5: under a naked enclosing function the clobber block is skipped
entirely, so the clobber list is empty whatever the register bitmask, the
moreRegs word and the memory-clobber flag are, and any record that reaches
the emitter carries an empty clobber list. -/
theorem naked_clobbers_empty (env : IREnv) (regs : Nat) (rn : Nat → String)
    (code : AsmCodeRec) (h : env.naked = true) :
    (∀ moreRegs cm, buildClobbers env.naked regs moreRegs cm rn = some []) ∧
    (emittedClobbers (toIR env regs rn code) = none ∨
      emittedClobbers (toIR env regs rn code) = some []) := by
  constructor
  · intro mr cm
    rw [h]
    simp [buildClobbers]
  · unfold toIR
    split
    · split
      · left; rfl
      · left; rfl
      · split
        · left; rfl
        · rename_i st cl heq
          have hcl : cl = [] := by
            rw [h] at heq
            simp [buildClobbers] at heq
            exact heq
          subst hcl
          split
          · left; rfl
          · right; rfl
    · left; rfl

theorem naked_clobbers_empty_witness :
    buildClobbers envNaked.naked 5 7 true rn0 = some [] ∧
    (emittedClobbers (toIR envNaked 5 rn0 codeNaked1) = none ∨
      emittedClobbers (toIR envNaked 5 rn0 codeNaked1) = some []) :=
  ⟨(naked_clobbers_empty envNaked 5 rn0 codeNaked1 rfl).1 7 true,
   (naked_clobbers_empty envNaked 5 rn0 codeNaked1 rfl).2⟩

/-- Running the operand loop over a prefix that completes, then the remainder,
is running it over the concatenation. -/
theorem collectArgs_append (env : IREnv) :
    ∀ (l1 l2 : List AsmArg) (st st1 : CollectState),
      collectArgs env l1 st = .done st1 →
      collectArgs env (l1 ++ l2) st = collectArgs env l2 st1 := by
  intro l1
  induction l1 with
  | nil =>
    intro l2 st st1 h
    simp [collectArgs] at h
    subst h
    rfl
  | cons a rest ih =>
    intro l2 st st1 h
    cases hr : resolveArg env a with
    | ok cns v isIn f =>
      simp [collectArgs, hr] at h ⊢
      exact ih l2 _ st1 h
    | userError msg => simp [collectArgs, hr] at h
    | assertFail => simp [collectArgs, hr] at h

/-- Claim C7: a FrameRelative operand on a variable the frame oracle cannot
resolve makes the switch report "argument not frame relative" and return: the
loop result is the abandoned state from just before that operand (so the
operand joined neither list), and toIR produces no instruction record. -/
theorem frame_relative_error_abandons (env : IREnv) (s : Nat) (mode : AsmArgMode)
    (h : env.frameOracle s = none) :
    resolveArg env { type := .Arg_FrameRelative, expr := .evar s, mode := mode }
      = .userError "argument not frame relative" ∧
    (∀ pre rest st st1, collectArgs env pre st = .done st1 →
      collectArgs env
          (pre ++ { type := .Arg_FrameRelative, expr := .evar s, mode := mode } :: rest) st
        = .abandoned "argument not frame relative" st1) ∧
    (∀ regs rn code pre rest st1,
      code.args = pre ++ { type := .Arg_FrameRelative, expr := .evar s, mode := mode } :: rest →
      code.args.length ≤ 10 →
      collectArgs env pre (initState code.clobbersMemory) = .done st1 →
      toIR env regs rn code = .abandoned "argument not frame relative") := by
  have h1 : resolveArg env { type := .Arg_FrameRelative, expr := .evar s, mode := mode }
      = .userError "argument not frame relative" := by
    simp [resolveArg, h]
  refine ⟨h1, ?_, ?_⟩
  · intro pre rest st st1 hpre
    rw [collectArgs_append env pre _ st st1 hpre]
    simp [collectArgs, h1]
  · intro regs rn code pre rest st1 hargs hlen hpre
    unfold toIR
    rw [if_pos hlen, hargs, collectArgs_append env pre _ _ st1 hpre]
    simp [collectArgs, h1]

theorem frame_relative_error_abandons_witness :
    toIR envNaked 0 rn0 codeFrameFail = .abandoned "argument not frame relative" :=
  (frame_relative_error_abandons envNaked 4 .Mode_Output rfl).2.2 0 rn0 codeFrameFail
    [intArg0] [] stPre7 rfl (by decide) rfl

/-- Inversion for Option.map producing some. -/
theorem option_map_cons_inv {α β : Type} (f : α → β) (o : Option α) (r : β)
    (h : Option.map f o = some r) : ∃ x, o = some x ∧ r = f x := by
  cases o with
  | none => simp at h
  | some x =>
    simp at h
    exact ⟨x, rfl, h.symm⟩

/-- One step of the template rewrite loop: a successful rewrite of c :: rest
is a byte followed by a successful rewrite of rest in some pending state, and
the byte is c itself unless the percent flag was pending and c is a digit. -/
theorem rewriteTemplate_cons_inv (m : List Int) (c : Char) (rest : List Char)
    (pct : Bool) (r : List Char)
    (h : rewriteTemplate m (c :: rest) pct = some r) :
    ∃ c2 r2 pct2, r = c2 :: r2 ∧ rewriteTemplate m rest pct2 = some r2 ∧
      (¬(pct = true ∧ '0' ≤ c ∧ c ≤ '9') → c2 = c) := by
  cases pct with
  | false =>
    rw [show rewriteTemplate m (c :: rest) false
        = (if c = '%' then Option.map (fun r => c :: r) (rewriteTemplate m rest true)
           else Option.map (fun r => c :: r) (rewriteTemplate m rest false)) from rfl] at h
    by_cases hc : c = '%'
    · rw [if_pos hc] at h
      obtain ⟨r2, hrec, hr⟩ := option_map_cons_inv _ _ _ h
      exact ⟨c, r2, true, hr, hrec, fun _ => rfl⟩
    · rw [if_neg hc] at h
      obtain ⟨r2, hrec, hr⟩ := option_map_cons_inv _ _ _ h
      exact ⟨c, r2, false, hr, hrec, fun _ => rfl⟩
  | true =>
    rw [show rewriteTemplate m (c :: rest) true
        = (if '0' ≤ c ∧ c ≤ '9' then
            match m.get? (c.toNat - 48) with
            | none => none
            | some v => Option.map (fun r => substChar v :: r) (rewriteTemplate m rest false)
          else if c = '%' then Option.map (fun r => c :: r) (rewriteTemplate m rest false)
          else Option.map (fun r => c :: r) (rewriteTemplate m rest true)) from rfl] at h
    by_cases hd : '0' ≤ c ∧ c ≤ '9'
    · rw [if_pos hd] at h
      rcases hget : m.get? (c.toNat - 48) with _ | v
      · rw [hget] at h
        cases h
      · rw [hget] at h
        obtain ⟨r2, hrec, hr⟩ := option_map_cons_inv _ _ _ h
        exact ⟨substChar v, r2, false, hr, hrec, fun hcon => absurd ⟨rfl, hd⟩ hcon⟩
    · rw [if_neg hd] at h
      by_cases hc : c = '%'
      · rw [if_pos hc] at h
        obtain ⟨r2, hrec, hr⟩ := option_map_cons_inv _ _ _ h
        exact ⟨c, r2, false, hr, hrec, fun _ => rfl⟩
      · rw [if_neg hc] at h
        obtain ⟨r2, hrec, hr⟩ := option_map_cons_inv _ _ _ h
        exact ⟨c, r2, true, hr, hrec, fun _ => rfl⟩

/-- The rewrite loop writes the template in place, so a successful rewrite
preserves the byte length. -/
theorem rewriteTemplate_length (m : List Int) :
    ∀ (t : List Char) (pct : Bool) (r : List Char),
      rewriteTemplate m t pct = some r → r.length = t.length := by
  intro t
  induction t with
  | nil =>
    intro pct r h
    simp [rewriteTemplate] at h
    subst h
    rfl
  | cons c rest ih =>
    intro pct r h
    obtain ⟨c2, r2, pct2, hr, hrec, _⟩ := rewriteTemplate_cons_inv m c rest pct r h
    subst hr
    simp [ih pct2 r2 hrec]

/-- A successful rewrite leaves every byte that is not a decimal digit
unchanged, whatever pending state each position is reached in. -/
theorem rewriteTemplate_nondigit_eq (m : List Int) :
    ∀ (t : List Char) (pct : Bool) (r : List Char),
      rewriteTemplate m t pct = some r →
      ∀ i (hi : i < t.length) (hr : i < r.length),
        ¬('0' ≤ t.get ⟨i, hi⟩ ∧ t.get ⟨i, hi⟩ ≤ '9') →
        r.get ⟨i, hr⟩ = t.get ⟨i, hi⟩ := by
  intro t
  induction t with
  | nil =>
    intro pct r h i hi
    exact absurd hi (by simp)
  | cons c rest ih =>
    intro pct r h i hi hr hnd
    obtain ⟨c2, r2, pct2, hrEq, hrec, hc2⟩ := rewriteTemplate_cons_inv m c rest pct r h
    subst hrEq
    cases i with
    | zero =>
      have hnd0 : ¬('0' ≤ c ∧ c ≤ '9') := by simpa using hnd
      have hc : c2 = c := hc2 (fun hcon => hnd0 hcon.2)
      simp [hc]
    | succ j =>
      have hi2 : j < rest.length := by simpa using hi
      have hr2 : j < r2.length := by simpa using hr
      have hnd2 : ¬('0' ≤ rest.get ⟨j, hi2⟩ ∧ rest.get ⟨j, hi2⟩ ≤ '9') := by
        simpa using hnd
      simpa using ih pct2 r2 hrec j hi2 hr2 hnd2

/-- Claim C8 counterexample: rewriting %b1 with remapped arg_map [1, 0]
substitutes the digit 1 (it becomes 0) although that byte does not
immediately follow an unescaped percent, it follows the modifier letter b. -/
theorem nonadjacent_digit_changed_ce :
    rewriteTemplate [1, 0] ('%' :: 'b' :: '1' :: []) false
      = some ('%' :: 'b' :: '0' :: []) := by decide

/-- Claim C8 as amended: a successful template rewrite preserves length and
changes no byte other than a decimal digit (digits are substituted exactly
when they are reached in pending-percent state, which an unescaped percent
sets and which persists across modifier letters); a double percent clears the
pending state, so after %% the following byte, digit or not, is processed
with no pending percent and in particular is never substituted. -/
theorem rewrite_changes_only_pending_digits (m : List Int) (t : List Char) (r : List Char)
    (h : rewriteTemplate m t false = some r) :
    r.length = t.length ∧
    (∀ i (hi : i < t.length) (hr : i < r.length),
      ¬('0' ≤ t.get ⟨i, hi⟩ ∧ t.get ⟨i, hi⟩ ≤ '9') → r.get ⟨i, hr⟩ = t.get ⟨i, hi⟩) ∧
    (∀ (c : Char) (rest : List Char), ¬(c = '%') →
      rewriteTemplate m ('%' :: '%' :: c :: rest) false
        = Option.map (fun l => '%' :: '%' :: l) (rewriteTemplate m (c :: rest) false)) ∧
    (∀ (c : Char) (rest : List Char), ¬(c = '%') →
      rewriteTemplate m (c :: rest) false
        = Option.map (fun l => c :: l) (rewriteTemplate m rest false)) := by
  refine ⟨rewriteTemplate_length m t false r h,
    rewriteTemplate_nondigit_eq m t false r h, ?_, ?_⟩
  · intro c rest hc
    have e1 : rewriteTemplate m ('%' :: '%' :: c :: rest) false
        = Option.map (fun l => '%' :: l) (rewriteTemplate m ('%' :: c :: rest) true) := rfl
    have e2 : rewriteTemplate m ('%' :: c :: rest) true
        = Option.map (fun l => '%' :: l) (rewriteTemplate m (c :: rest) false) := rfl
    rw [e1, e2, Option.map_map]
    rfl
  · intro c rest hc
    simp [rewriteTemplate, hc]

theorem rewrite_changes_only_pending_digits_witness :
    rewriteTemplate [0] ('%' :: '%' :: 'a' :: '0' :: []) false
      = Option.map (fun l => '%' :: '%' :: l) (rewriteTemplate [0] ('a' :: '0' :: []) false) :=
  (rewrite_changes_only_pending_digits [0] ['x'] ['x'] rfl).2.2.1 'a' ['0'] (by decide)

/-- Occurrences of a string in the conditional modifiable-lvalue error chunk. -/
theorem count_chunkMod (c1 : Prop) [Decidable c1] (modif : Bool) (s : String)
    (h : ¬(errModifiable = s)) :
    ((if c1 then (if modif then [] else [errModifiable]) else []) : List String).count s = 0 := by
  split
  · split
    · rfl
    · simp [List.count_cons, beq_iff_eq, h]
  · rfl

/-- Occurrences of the modifiable-lvalue error in its own chunk. -/
theorem count_chunkMod_same (c1 : Prop) [Decidable c1] (modif : Bool) :
    ((if c1 then (if modif then [] else [errModifiable]) else [])
        : List String).count errModifiable
      = (if c1 then (if modif then 0 else 1) else 0) := by
  split
  · split
    · rfl
    · simp [List.count_cons]
  · rfl

/-- Occurrences of a different string in a conditional one-error chunk. -/
theorem count_chunk_single (c1 : Prop) [Decidable c1] (e s : String) (h : ¬(e = s)) :
    ((if c1 then [] else [e]) : List String).count s = 0 := by
  split
  · rfl
  · simp [List.count_cons, beq_iff_eq, h]

/-- Occurrences of the error of a conditional one-error chunk in itself. -/
theorem count_chunk_same (c1 : Prop) [Decidable c1] (e : String) :
    ((if c1 then [] else [e]) : List String).count e = (if c1 then 0 else 1) := by
  split
  · rfl
  · simp [List.count_cons]

/-- The operand loop reports the constraint error exactly once per
non-constant constraint, no matter what other checks fail. -/
theorem extLoop_count_constraintErr (nOut : Nat) :
    ∀ (l : List (Bool × Bool)) (i : Nat),
      (extSemanticLoop nOut i l).count errConstraint
        = (l.map Prod.snd).countP (fun b => !b) := by
  intro l
  induction l with
  | nil => intro i; rfl
  | cons p rest ih =>
    intro i
    obtain ⟨modif, cconst⟩ := p
    simp only [extSemanticLoop, List.count_append]
    rw [ih (i + 1), count_chunkMod (i < nOut) modif errConstraint (by decide),
      count_chunk_same (cconst = true) errConstraint]
    cases cconst <;> simp [Nat.add_comm]

/-- The operand loop reports the modifiable-lvalue error exactly once per
non-modifiable operand among the first nOut - i remaining ones. -/
theorem extLoop_count_modifErr (nOut : Nat) :
    ∀ (l : List (Bool × Bool)) (i : Nat),
      (extSemanticLoop nOut i l).count errModifiable
        = ((l.map Prod.fst).take (nOut - i)).countP (fun b => !b) := by
  intro l
  induction l with
  | nil => intro i; simp [extSemanticLoop]
  | cons p rest ih =>
    intro i
    obtain ⟨modif, cconst⟩ := p
    simp only [extSemanticLoop, List.count_append]
    rw [ih (i + 1), count_chunkMod_same (i < nOut) modif,
      count_chunk_single (cconst = true) errConstraint errModifiable (by decide)]
    by_cases hi : i < nOut
    · have htake : nOut - i = (nOut - (i + 1)) + 1 := by omega
      rw [htake]
      cases modif
      · simp [hi, List.take_succ_cons]
        omega
      · simp [hi, List.take_succ_cons]
    · have htake : nOut - i = 0 := by omega
      have htake2 : nOut - (i + 1) = 0 := by omega
      rw [htake, htake2]
      simp [hi]

/-- The operand loop emits no error string other than its two own. -/
theorem extLoop_count_otherErr (nOut : Nat) (s : String) (h1 : ¬(errModifiable = s))
    (h2 : ¬(errConstraint = s)) :
    ∀ (l : List (Bool × Bool)) (i : Nat), (extSemanticLoop nOut i l).count s = 0 := by
  intro l
  induction l with
  | nil => intro i; rfl
  | cons p rest ih =>
    intro i
    obtain ⟨modif, cconst⟩ := p
    simp only [extSemanticLoop, List.count_append]
    rw [ih (i + 1), count_chunkMod (i < nOut) modif s h1,
      count_chunk_single (cconst = true) errConstraint s h2]

/-- The clobber loop reports the clobber error once per non-constant clobber. -/
theorem clobberLoop_count :
    ∀ cl : List Bool, (clobberLoop cl).count errClobber = cl.countP (fun b => !b) := by
  intro cl
  induction cl with
  | nil => rfl
  | cons c rest ih =>
    simp only [clobberLoop, List.count_append]
    rw [ih, count_chunk_same (c = true) errClobber]
    cases c <;> simp [Nat.add_comm]

/-- The clobber loop emits no other error string. -/
theorem clobberLoop_count_other (s : String) (h : ¬(errClobber = s)) :
    ∀ cl : List Bool, (clobberLoop cl).count s = 0 := by
  intro cl
  induction cl with
  | nil => rfl
  | cons c rest ih =>
    simp only [clobberLoop, List.count_append]
    rw [ih, count_chunk_single (c = true) errClobber s h]

/-- Claim C9: ExtAsmStatement::semantic never aborts early: whatever
combination of checks fails, the recorded error list contains the template
error iff the template is non-constant, one modifiable-lvalue error per
non-modifiable output operand, one constraint error per non-constant
constraint, and one clobber error per non-constant clobber, so every operand,
constraint and clobber is visited and each failure is recorded against the
statement. -/
theorem ext_semantic_checks_all (m : ExtAsmModel)
    (hlen : m.argsModifiable.length = m.constraintsConst.length) :
    (extSemantic m).count errTempl = (if m.templConst then 0 else 1) ∧
    (extSemantic m).count errModifiable
      = (m.argsModifiable.take m.nOutputArgs).countP (fun b => b = false) ∧
    (extSemantic m).count errConstraint = m.constraintsConst.countP (fun b => b = false) ∧
    (extSemantic m).count errClobber = m.clobbersConst.countP (fun b => b = false) := by
  have hfst : (m.argsModifiable.zip m.constraintsConst).map Prod.fst = m.argsModifiable :=
    List.map_fst_zip _ _ (le_of_eq hlen)
  have hsnd : (m.argsModifiable.zip m.constraintsConst).map Prod.snd = m.constraintsConst :=
    List.map_snd_zip _ _ (le_of_eq hlen.symm)
  refine ⟨?_, ?_, ?_, ?_⟩
  · simp only [extSemantic, List.count_append]
    rw [count_chunk_same (m.templConst = true) errTempl,
      extLoop_count_otherErr m.nOutputArgs errTempl (by decide) (by decide) _ 0,
      clobberLoop_count_other errTempl (by decide)]
    cases h : m.templConst <;> simp
  · simp only [extSemantic, List.count_append]
    rw [count_chunk_single (m.templConst = true) errTempl errModifiable (by decide),
      extLoop_count_modifErr m.nOutputArgs _ 0,
      clobberLoop_count_other errModifiable (by decide), hfst]
    simp
  · simp only [extSemantic, List.count_append]
    rw [count_chunk_single (m.templConst = true) errTempl errConstraint (by decide),
      extLoop_count_constraintErr m.nOutputArgs _ 0,
      clobberLoop_count_other errConstraint (by decide), hsnd]
    simp
  · simp only [extSemantic, List.count_append]
    rw [count_chunk_single (m.templConst = true) errTempl errClobber (by decide),
      extLoop_count_otherErr m.nOutputArgs errClobber (by decide) (by decide) _ 0,
      clobberLoop_count]
    simp

theorem ext_semantic_checks_all_witness :
    (extSemantic mC9).count errTempl = 1 ∧
    (extSemantic mC9).count errModifiable = 1 ∧
    (extSemantic mC9).count errConstraint = 2 ∧
    (extSemantic mC9).count errClobber = 1 :=
  ext_semantic_checks_all mC9 rfl

theorem argIsInput_inv (env : IREnv) (a : AsmArg) (b : Bool)
    (h : argIsInput env a = some b) :
    ∃ cns v f, resolveArg env a = .ok cns v b f := by
  unfold argIsInput at h
  cases hr : resolveArg env a with
  | ok cns v b2 f =>
    rw [hr] at h
    simp at h
    subst h
    exact ⟨cns, v, f, rfl⟩
  | userError msg => rw [hr] at h; cases h
  | assertFail => rw [hr] at h; cases h

theorem argFlags_length (env : IREnv) :
    ∀ (l : List AsmArg) (ds : List Bool), argFlags env l = some ds → ds.length = l.length := by
  intro l
  induction l with
  | nil =>
    intro ds h
    simp [argFlags] at h
    subst h
    rfl
  | cons a rest ih =>
    intro ds h
    cases hb : argIsInput env a with
    | none => simp only [argFlags] at h; rw [hb] at h; cases h
    | some b =>
      simp only [argFlags] at h
      rw [hb] at h
      obtain ⟨ds2, hds2, hdseq⟩ := option_map_cons_inv _ _ _ h
      subst hdseq
      simp [ih ds2 hds2]

theorem collect_done_spec (env : IREnv) :
    ∀ (l : List AsmArg) (ds : List Bool) (st st1 : CollectState),
      argFlags env l = some ds → collectArgs env l st = .done st1 →
      st1.arg_map = st.arg_map ++ provisionalMap ds st.input_idx st.n_outputs ∧
      st1.n_outputs = st.n_outputs + ds.countP (fun b => !b) := by
  intro l
  induction l with
  | nil =>
    intro ds st st1 hf hc
    simp [argFlags] at hf
    simp [collectArgs] at hc
    subst hf
    subst hc
    simp [provisionalMap]
  | cons a rest ih =>
    intro ds st st1 hf hc
    cases hb : argIsInput env a with
    | none => simp only [argFlags] at hf; rw [hb] at hf; cases hf
    | some b =>
      simp only [argFlags] at hf
      rw [hb] at hf
      obtain ⟨ds2, hds2, hdseq⟩ := option_map_cons_inv _ _ _ hf
      subst hdseq
      obtain ⟨cns, v, f, hr⟩ := argIsInput_inv env a b hb
      simp only [collectArgs] at hc
      rw [hr] at hc
      have hrec := ih ds2 (collectStep st cns v b f) st1 hds2 hc
      cases b
      · simp [collectStep] at hrec
        refine ⟨?_, ?_⟩
        · rw [hrec.1]
          simp [provisionalMap]
        · rw [hrec.2]
          simp [List.countP_cons]
          omega
      · simp [collectStep] at hrec
        refine ⟨?_, ?_⟩
        · rw [hrec.1]
          simp [provisionalMap]
        · rw [hrec.2]
          simp [List.countP_cons]

theorem remap_provisional :
    ∀ (ds : List Bool) (o j k : Nat),
      remapArgMap (provisionalMap ds (-(j : Int)) o) k
        = (canonMap k ds o j).map (fun n => (n : Int)) := by
  intro ds
  induction ds with
  | nil => intro o j k; rfl
  | cons b rest ih =>
    intro o j k
    cases b
    · have h0 : ¬ ((o : Int) < 0) := by omega
      show (if (o : Int) < 0 then -(o : Int) - 1 + (k : Int) else (o : Int))
          :: remapArgMap (provisionalMap rest (-(j : Int)) (o + 1)) k
        = ((o : Nat) : Int) :: (canonMap k rest (o + 1) j).map (fun n => (n : Int))
      rw [if_neg h0, ih (o + 1) j k]
    · have h0 : (-(j : Int) - 1) < 0 := by omega
      have hhead : (if (-(j : Int) - 1) < 0 then -(-(j : Int) - 1) - 1 + (k : Int)
            else (-(j : Int) - 1))
          = ((k + j : Nat) : Int) := by
        rw [if_pos h0]
        push_cast
        ring
      have hcast : (-(j : Int) - 1) = -(((j + 1 : Nat)) : Int) := by push_cast; ring
      show (if (-(j : Int) - 1) < 0 then -(-(j : Int) - 1) - 1 + (k : Int)
            else (-(j : Int) - 1))
          :: remapArgMap (provisionalMap rest (-(j : Int) - 1) o) k
        = ((k + j : Nat) : Int) :: (canonMap k rest o (j + 1)).map (fun n => (n : Int))
      rw [hhead, hcast, ih o (j + 1) k]

theorem canonMap_perm :
    ∀ (ds : List Bool) (k o j : Nat),
      (canonMap k ds o j).Perm
        (List.range' o (ds.countP (fun b => !b))
          ++ List.range' (k + j) (ds.countP (fun b => b))) := by
  intro ds
  induction ds with
  | nil => intro k o j; simp [canonMap]
  | cons b rest ih =>
    intro k o j
    cases b
    · have hcF : (false :: rest).countP (fun b => !b) = rest.countP (fun b => !b) + 1 := by
        simp
      have hcT : (false :: rest).countP (fun b => b) = rest.countP (fun b => b) := by simp
      rw [show canonMap k (false :: rest) o j = o :: canonMap k rest (o + 1) j from rfl,
        hcF, hcT, List.range'_succ o _ 1, List.cons_append]
      exact (ih k (o + 1) j).cons o
    · have hcF : (true :: rest).countP (fun b => !b) = rest.countP (fun b => !b) := by simp
      have hcT : (true :: rest).countP (fun b => b) = rest.countP (fun b => b) + 1 := by simp
      rw [show canonMap k (true :: rest) o j = (k + j) :: canonMap k rest o (j + 1) from rfl,
        hcF, hcT, List.range'_succ (k + j) _ 1]
      have hstep : k + j + 1 = k + (j + 1) := by omega
      rw [hstep]
      exact ((ih k o (j + 1)).cons (k + j)).trans List.perm_middle.symm

theorem countP_bool_split : ∀ ds : List Bool,
    ds.countP (fun b => !b) + ds.countP (fun b => b) = ds.length := by
  intro ds
  induction ds with
  | nil => rfl
  | cons b rest ih => cases b <;> simp [List.countP_cons] <;> omega

theorem canonMap_perm_range (ds : List Bool) :
    (canonMap (ds.countP (fun b => !b)) ds 0 0).Perm (List.range ds.length) := by
  have h := canonMap_perm ds (ds.countP (fun b => !b)) 0 0
  have happ := List.range'_append 0 (ds.countP (fun b => !b)) (ds.countP (fun b => b)) 1
  rw [List.range_eq_range']
  have hlen : ds.length = ds.countP (fun b => b) + ds.countP (fun b => !b) := by
    have := countP_bool_split ds
    omega
  rw [hlen, ← happ]
  have h0 : 0 + 1 * (ds.countP (fun b => !b)) = ds.countP (fun b => !b) := by omega
  rw [h0]
  have h1 : (ds.countP (fun b => !b)) + 0 = ds.countP (fun b => !b) := by omega
  rw [h1] at h
  exact h

theorem canonMap_get :
    ∀ (ds : List Bool) (k o j i : Nat) (b : Bool), ds.get? i = some b →
      (canonMap k ds o j).get? i
        = some (if b then k + j + (ds.take i).countP (fun x => x)
                else o + (ds.take i).countP (fun x => !x)) := by
  intro ds
  induction ds with
  | nil =>
    intro k o j i b h
    simp at h
  | cons d rest ih =>
    intro k o j i b h
    cases i with
    | zero =>
      simp at h
      subst h
      cases d <;> simp [canonMap]
    | succ n =>
      simp only [List.get?_cons_succ] at h
      cases d
      · rw [show canonMap k (false :: rest) o j = o :: canonMap k rest (o + 1) j from rfl]
        rw [List.get?_cons_succ, ih k (o + 1) j n b h]
        cases b <;> simp [List.take_succ_cons, List.countP_cons] <;> omega
      · rw [show canonMap k (true :: rest) o j = (k + j) :: canonMap k rest o (j + 1) from rfl]
        rw [List.get?_cons_succ, ih k o (j + 1) n b h]
        cases b <;> simp [List.take_succ_cons, List.countP_cons] <;> omega

theorem countP_take_lt (p : Bool → Bool) :
    ∀ (ds : List Bool) (i : Nat) (b : Bool), ds.get? i = some b → p b = true →
      (ds.take i).countP p < ds.countP p := by
  intro ds
  induction ds with
  | nil =>
    intro i b h
    simp at h
  | cons d rest ih =>
    intro i b h hp
    cases i with
    | zero =>
      simp at h
      subst h
      simp [List.countP_cons, hp]
    | succ n =>
      simp only [List.get?_cons_succ] at h
      have := ih n b h hp
      rw [List.take_succ_cons]
      simp only [List.countP_cons]
      cases hpd : p d <;> simp [hpd] <;> omega

/-- Claim C1: for a statement whose operands (at most 10) all resolve, with
is_input flags ds and k outputs, the remapped arg_map equals the canonical
index map; that map is a permutation of [0, n), sends the i-th operand to its
output rank (if an output) or to k plus its input rank (if an input), so each
group keeps declaration order, outputs land in [0, k) and inputs in [k, n). -/
theorem arg_map_bijection (env : IREnv) (args : List AsmArg) (cm : Bool)
    (st : CollectState) (ds : List Bool)
    (hn : args.length ≤ 10)
    (hc : collectArgs env args (initState cm) = .done st)
    (hds : argFlags env args = some ds) :
    st.n_outputs = ds.countP (fun b => !b) ∧
    remapArgMap st.arg_map st.n_outputs
      = (canonMap st.n_outputs ds 0 0).map (fun n => (n : Int)) ∧
    (canonMap st.n_outputs ds 0 0).Perm (List.range args.length) ∧
    (∀ i b, ds.get? i = some b →
      (canonMap st.n_outputs ds 0 0).get? i
        = some (if b then st.n_outputs + (ds.take i).countP (fun x => x)
                else (ds.take i).countP (fun x => !x))) ∧
    (∀ i b v, ds.get? i = some b →
      (canonMap st.n_outputs ds 0 0).get? i = some v →
      (b = true → st.n_outputs ≤ v ∧ v < args.length) ∧
      (b = false → v < st.n_outputs)) := by
  obtain ⟨hmap, hout⟩ := collect_done_spec env args ds (initState cm) st hds hc
  have hlen : ds.length = args.length := argFlags_length env args ds hds
  have hk : st.n_outputs = ds.countP (fun b => !b) := by
    simpa [initState] using hout
  have hm : st.arg_map = provisionalMap ds 0 0 := by
    simpa [initState] using hmap
  have hget : ∀ i b, ds.get? i = some b →
      (canonMap st.n_outputs ds 0 0).get? i
        = some (if b then st.n_outputs + (ds.take i).countP (fun x => x)
                else (ds.take i).countP (fun x => !x)) := by
    intro i b hi
    rw [hk]
    have := canonMap_get ds (ds.countP (fun b => !b)) 0 0 i b hi
    simpa using this
  refine ⟨hk, ?_, ?_, hget, ?_⟩
  · rw [hm, hk]
    have := remap_provisional ds 0 0 (ds.countP (fun b => !b))
    simpa using this
  · rw [hk, ← hlen]
    exact canonMap_perm_range ds
  · intro i b v hi hv
    have h2 := hget i b hi
    rw [hv] at h2
    have hv2 : v = (if b then st.n_outputs + (ds.take i).countP (fun x => x)
        else (ds.take i).countP (fun x => !x)) := by
      simpa using h2
    constructor
    · rintro rfl
      simp only [if_true] at hv2
      have hlt := countP_take_lt (fun x => x) ds i true hi rfl
      have hsum := countP_bool_split ds
      rw [hv2, hk, ← hlen]
      omega
    · rintro rfl
      simp only [Bool.false_eq_true, if_false] at hv2
      have hlt := countP_take_lt (fun x => !x) ds i false hi rfl
      rw [hv2, hk]
      omega

theorem arg_map_bijection_witness :
    remapArgMap st01.arg_map st01.n_outputs
      = (canonMap st01.n_outputs (false :: true :: []) 0 0).map (fun n => (n : Int)) ∧
    (canonMap st01.n_outputs (false :: true :: []) 0 0).Perm (List.range args01.length) :=
  ⟨(arg_map_bijection envNaked args01 false st01 (false :: true :: [])
      (by decide) rfl rfl).2.1,
   (arg_map_bijection envNaked args01 false st01 (false :: true :: [])
      (by decide) rfl rfl).2.2.1⟩
